import Mathlib

/-!
Verification of the dynamic-prefix-operator prefix arithmetic and controllers.

IPv6 addresses are modelled as natural numbers below `2 ^ 128` (network byte
order: the most significant byte of the 16-byte address is the most
significant byte of the number).  The Go sources operate on `[16]byte`
values; byte-wise carry/borrow loops correspond to addition and subtraction
modulo `2 ^ 128`, and the `netip.Prefix` operations compare or zero the
leading `bits` bits, which corresponds to division by `2 ^ (128 - bits)`.
-/

set_option maxHeartbeats 1000000
set_option maxRecDepth 10000

namespace DynPfx

/-- Size of the IPv6 address space, `2 ^ 128`. -/
def addrSpace : Nat := 2 ^ 128

/-- An IPv6 prefix (`netip.Prefix`): an address and a bit length. -/
structure Pfx where
  addr : Nat
  bits : Nat
  deriving Repr, DecidableEq

/-- Zero the host bits of `a`, keeping the leading `bits` bits
(`netip.Addr.Prefix` / `netip.Prefix.Masked`). -/
def maskAddr (a : Nat) (bits : Nat) : Nat :=
  a / 2 ^ (128 - bits) * 2 ^ (128 - bits)

/-- `netip.Prefix.Masked`: the prefix with host bits zeroed. -/
def Pfx.masked (p : Pfx) : Pfx := ⟨maskAddr p.addr p.bits, p.bits⟩

/-- `netip.Prefix.Contains` for IPv6: the leading `bits` bits of `a` equal
the leading `bits` bits of the prefix address. -/
def Pfx.contains (p : Pfx) (a : Nat) : Bool :=
  a / 2 ^ (128 - p.bits) == p.addr / 2 ^ (128 - p.bits)

/-! ## Subnet calculation (internal/prefix/subnet.go) -/

/-- `SubnetConfig` from internal/prefix/subnet.go.  `Offset` is an `int64`
in Go; the CRD documents it as a non-negative address offset (default 0),
so it is modelled as `Nat`. -/
structure SubnetConfig where
  name : String
  offset : Nat
  prefixLength : Nat
  deriving Repr, DecidableEq

/-- `Subnet` from internal/prefix/subnet.go. -/
structure Subnet where
  name : String
  cidr : Pfx
  deriving Repr, DecidableEq

/-- Failure modes of the subnet calculation.  `fillBytesPanic` models the Go
runtime panic raised by `big.Int.FillBytes` when the computed 128-bit sum
does not fit into the 16-byte buffer. -/
inductive SubnetErr where
  | tooShort
  | lengthInvalid
  | fillBytesPanic
  | outsideParent
  deriving Repr, DecidableEq

/-- `CalculateSubnet` from internal/prefix/subnet.go: checks
`cfg.PrefixLength < basePrefix.Bits()` and `cfg.PrefixLength > 128`, then
computes `baseInt + offset * 2^(128-prefixLength)` with exact big-integer
arithmetic and converts back to 16 bytes with `FillBytes` (which panics
when the value needs more than 16 bytes), finally masking the address to
`prefixLength` bits via `netip.Addr.Prefix`. -/
def CalculateSubnet (basePrefix : Pfx) (cfg : SubnetConfig) : Except SubnetErr Subnet :=
  if cfg.prefixLength < basePrefix.bits then
    .error .tooShort
  else if 128 < cfg.prefixLength then
    .error .lengthInvalid
  else
    let subnetInt := basePrefix.addr + cfg.offset * 2 ^ (128 - cfg.prefixLength)
    if addrSpace ≤ subnetInt then
      .error .fillBytesPanic
    else
      .ok ⟨cfg.name, ⟨maskAddr subnetInt cfg.prefixLength, cfg.prefixLength⟩⟩

/-- `ValidateSubnetFitsInPrefix` from internal/prefix/subnet.go: runs
`CalculateSubnet` and then checks the subnet network address is contained
in the base prefix. -/
def ValidateSubnetFitsInPrefix (basePrefix : Pfx) (cfg : SubnetConfig) : Except SubnetErr Unit :=
  match CalculateSubnet basePrefix cfg with
  | .error e => .error e
  | .ok s => if basePrefix.contains s.cidr.addr then .ok () else .error .outsideParent

/-- `CalculateSubnets` from internal/prefix/subnet.go (fail-fast map). -/
def CalculateSubnets (basePrefix : Pfx) : List SubnetConfig → Except SubnetErr (List Subnet)
  | [] => .ok []
  | cfg :: rest =>
    match CalculateSubnet basePrefix cfg with
    | .error e => .error e
    | .ok s =>
      match CalculateSubnets basePrefix rest with
      | .error e => .error e
      | .ok ss => .ok (s :: ss)

/-! ## Range-to-CIDR (internal/prefix/addressrange.go, `RangeToCIDR`) -/

/-- Byte `i` (0 = most significant) of a 128-bit value, as in
`netip.Addr.As16()`. -/
def byteAt (a i : Nat) : Nat := a / 2 ^ (8 * (15 - i)) % 256

/-- The inner bit loop of `RangeToCIDR`: it scans the XOR of the first
differing byte from bit 7 downward and counts the leading zero bits. -/
def leadZeros8 (d : Nat) : Nat :=
  if d.testBit 7 then 0
  else if d.testBit 6 then 1
  else if d.testBit 5 then 2
  else if d.testBit 4 then 3
  else if d.testBit 3 then 4
  else if d.testBit 2 then 5
  else if d.testBit 1 then 6
  else if d.testBit 0 then 7
  else 8

/-- The byte loop of `RangeToCIDR`: `k` bytes remain to scan, so the current
byte index is `16 - k`; `acc` leading bits are already known to agree.
Scanning stops at the first differing byte. -/
def commonBitsFrom (s e : Nat) : Nat → Nat → Nat
  | 0, acc => acc
  | k + 1, acc =>
    if byteAt s (16 - (k + 1)) = byteAt e (16 - (k + 1)) then
      commonBitsFrom s e k (acc + 8)
    else
      acc + leadZeros8 (byteAt s (16 - (k + 1)) ^^^ byteAt e (16 - (k + 1)))

/-- The `commonBits` value computed by `RangeToCIDR`'s loop. -/
def commonBits (s e : Nat) : Nat := commonBitsFrom s e 16 0

/-- `RangeToCIDR` from internal/prefix/addressrange.go: the prefix of the
start address with the common leading bits of start and end, masked
(`start.Prefix(commonBits)` followed by `.Masked()`). -/
def RangeToCIDR (start stop : Nat) : Pfx :=
  ⟨maskAddr start (commonBits start stop), commonBits start stop⟩

/-! ### Supporting bit lemmas -/

theorem testBit_div_pow (x n i : Nat) : (x / 2 ^ n).testBit i = x.testBit (n + i) := by
  rw [Nat.testBit_to_div_mod, Nat.testBit_to_div_mod, Nat.div_div_eq_div_mul, ← pow_add]

theorem div_pow_eq_of_xor_lt {x y m : Nat} (h : x ^^^ y < 2 ^ m) :
    x / 2 ^ m = y / 2 ^ m := by
  apply Nat.eq_of_testBit_eq
  intro i
  rw [testBit_div_pow, testBit_div_pow]
  have hmi : x ^^^ y < 2 ^ (m + i) :=
    lt_of_lt_of_le h (Nat.pow_le_pow_right (by norm_num) (Nat.le_add_right m i))
  have hb : (x ^^^ y).testBit (m + i) = false := Nat.testBit_lt_two_pow hmi
  rw [Nat.testBit_xor] at hb
  cases hx : x.testBit (m + i) <;> cases hy : y.testBit (m + i) <;>
    simp_all

theorem div_pow_ne_of_testBit {x y m : Nat} (h : (x ^^^ y).testBit m = true) :
    x / 2 ^ m ≠ y / 2 ^ m := by
  intro he
  have h0 := congrArg (fun z => z.testBit 0) he
  simp only [testBit_div_pow, Nat.add_zero] at h0
  rw [Nat.testBit_xor, h0] at h
  simp at h

theorem testBit_of_bounds {d m : Nat} (h1 : 2 ^ m ≤ d) (h2 : d < 2 ^ (m + 1)) :
    d.testBit m = true := by
  rw [Nat.testBit_to_div_mod]
  have h3 : d / 2 ^ m = 1 := by
    apply Nat.div_eq_of_lt_le
    · simpa using h1
    · have hp : (1 + 1) * 2 ^ m = 2 ^ (m + 1) := by
        rw [pow_succ]
        ring
      rw [hp]
      exact h2
  simp [h3]

/-- Splitting a quotient by `2 ^ t` (for `t ≤ 8`) through the top byte:
`X / 2^t = (X % 256) / 2^t + (X / 256) * 2^(8-t)`. -/
theorem div_mod_split (X t : Nat) (ht : t ≤ 8) :
    X / 2 ^ t = X % 256 / 2 ^ t + X / 256 * 2 ^ (8 - t) := by
  have h256 : 2 ^ (8 - t) * 2 ^ t = 256 := by
    rw [← pow_add, show 8 - t + t = 8 by omega]
    norm_num
  have hX : X = X % 256 + X / 256 * 2 ^ (8 - t) * 2 ^ t := by
    calc X = 256 * (X / 256) + X % 256 := (Nat.div_add_mod X 256).symm
      _ = X % 256 + X / 256 * (2 ^ (8 - t) * 2 ^ t) := by rw [h256]; ring
      _ = X % 256 + X / 256 * 2 ^ (8 - t) * 2 ^ t := by ring
  conv_lhs => rw [hX]
  rw [Nat.add_mul_div_right _ _ (Nat.two_pow_pos t)]

theorem div_agree_mono {a b j k : Nat} (h : a / 2 ^ j = b / 2 ^ j) (hjk : j ≤ k) :
    a / 2 ^ k = b / 2 ^ k := by
  have hpow : 2 ^ k = 2 ^ j * 2 ^ (k - j) := by
    rw [← pow_add]
    congr 1
    omega
  rw [hpow, ← Nat.div_div_eq_div_mul, ← Nat.div_div_eq_div_mul, h]

theorem leadZeros8_bounds : ∀ d : Nat, d < 256 → d ≠ 0 →
    leadZeros8 d ≤ 7 ∧ 2 ^ (7 - leadZeros8 d) ≤ d ∧ d < 2 ^ (8 - leadZeros8 d) := by
  decide

theorem byteAt_idx {k : Nat} (hk : k ≤ 15) (s : Nat) :
    byteAt s (16 - (k + 1)) = s / 2 ^ (8 * k) % 256 := by
  unfold byteAt
  congr 3
  omega

/-- Specification of the byte loop: starting at byte `16 - k` with the first
`acc = 8 * (16 - k)` bits known to agree, the loop returns the exact number
of common leading bits of `s` and `e`. -/
theorem commonBitsFrom_spec (s e : Nat) :
    ∀ k acc, k ≤ 16 → acc = 8 * (16 - k) →
    s / 2 ^ (8 * k) = e / 2 ^ (8 * k) →
    acc ≤ commonBitsFrom s e k acc ∧
    commonBitsFrom s e k acc ≤ 128 ∧
    s / 2 ^ (128 - commonBitsFrom s e k acc) = e / 2 ^ (128 - commonBitsFrom s e k acc) ∧
    (commonBitsFrom s e k acc < 128 →
      s / 2 ^ (127 - commonBitsFrom s e k acc) ≠ e / 2 ^ (127 - commonBitsFrom s e k acc)) := by
  intro k
  induction k with
  | zero =>
    intro acc _ hacc hdiv
    have hacc128 : acc = 128 := by omega
    subst hacc128
    refine ⟨Nat.le_refl _, by simp [commonBitsFrom], ?_, ?_⟩
    · simpa [commonBitsFrom] using hdiv
    · intro h
      simp [commonBitsFrom] at h
  | succ k ih =>
    intro acc hk hacc hdiv
    have hk15 : k ≤ 15 := by omega
    have hstep : commonBitsFrom s e (k + 1) acc =
        if s / 2 ^ (8 * k) % 256 = e / 2 ^ (8 * k) % 256 then
          commonBitsFrom s e k (acc + 8)
        else
          acc + leadZeros8 (s / 2 ^ (8 * k) % 256 ^^^ e / 2 ^ (8 * k) % 256) := by
      simp only [commonBitsFrom]
      rw [byteAt_idx hk15 s, byteAt_idx hk15 e]
    have hdd : ∀ a : Nat, a / 2 ^ (8 * k) / 256 = a / 2 ^ (8 * (k + 1)) := by
      intro a
      rw [Nat.div_div_eq_div_mul, show (256 : Nat) = 2 ^ 8 by norm_num, ← pow_add,
        show 8 * k + 8 = 8 * (k + 1) by ring]
    have hXY : s / 2 ^ (8 * k) / 256 = e / 2 ^ (8 * k) / 256 := by
      rw [hdd s, hdd e, hdiv]
    by_cases hbyte : s / 2 ^ (8 * k) % 256 = e / 2 ^ (8 * k) % 256
    · rw [hstep, if_pos hbyte]
      have hXeq : s / 2 ^ (8 * k) = e / 2 ^ (8 * k) := by omega
      obtain ⟨ha, hb, hc, hd⟩ := ih (acc + 8) (by omega) (by omega) hXeq
      exact ⟨by omega, hb, hc, hd⟩
    · rw [hstep, if_neg hbyte]
      have hxlt : s / 2 ^ (8 * k) % 256 < 2 ^ 8 := by
        have := Nat.mod_lt (s / 2 ^ (8 * k)) (y := 256) (by norm_num)
        simpa using this
      have hylt : e / 2 ^ (8 * k) % 256 < 2 ^ 8 := by
        have := Nat.mod_lt (e / 2 ^ (8 * k)) (y := 256) (by norm_num)
        simpa using this
      have hdlt : s / 2 ^ (8 * k) % 256 ^^^ e / 2 ^ (8 * k) % 256 < 256 := by
        simpa using Nat.xor_lt_two_pow hxlt hylt
      have hdne : s / 2 ^ (8 * k) % 256 ^^^ e / 2 ^ (8 * k) % 256 ≠ 0 := by
        simpa [Nat.xor_eq_zero] using hbyte
      obtain ⟨hlz7, hlow, hhigh⟩ :=
        leadZeros8_bounds (s / 2 ^ (8 * k) % 256 ^^^ e / 2 ^ (8 * k) % 256) hdlt hdne
      have hsplit : ∀ (a t : Nat), a / 2 ^ (8 * k + t) = a / 2 ^ (8 * k) / 2 ^ t := by
        intro a t
        rw [Nat.div_div_eq_div_mul, ← pow_add]
      have hacc' : acc = 8 * (15 - k) := by omega
      refine ⟨by omega, by omega, ?_, ?_⟩
      · -- agreement at the returned bit count
        have hexp : 128 - (acc + leadZeros8 (s / 2 ^ (8 * k) % 256 ^^^ e / 2 ^ (8 * k) % 256)) =
            8 * k + (8 - leadZeros8 (s / 2 ^ (8 * k) % 256 ^^^ e / 2 ^ (8 * k) % 256)) := by
          omega
        have hF1 := div_pow_eq_of_xor_lt hhigh
        rw [hexp, hsplit s, hsplit e,
          div_mod_split (s / 2 ^ (8 * k)) _ (by omega),
          div_mod_split (e / 2 ^ (8 * k)) _ (by omega), hXY, hF1]
      · -- disagreement one bit further down
        intro _
        have hexp : 127 - (acc + leadZeros8 (s / 2 ^ (8 * k) % 256 ^^^ e / 2 ^ (8 * k) % 256)) =
            8 * k + (7 - leadZeros8 (s / 2 ^ (8 * k) % 256 ^^^ e / 2 ^ (8 * k) % 256)) := by
          omega
        have hbit : (s / 2 ^ (8 * k) % 256 ^^^ e / 2 ^ (8 * k) % 256).testBit
            (7 - leadZeros8 (s / 2 ^ (8 * k) % 256 ^^^ e / 2 ^ (8 * k) % 256)) = true := by
          apply testBit_of_bounds hlow
          rw [show 7 - leadZeros8 (s / 2 ^ (8 * k) % 256 ^^^ e / 2 ^ (8 * k) % 256) + 1 =
            8 - leadZeros8 (s / 2 ^ (8 * k) % 256 ^^^ e / 2 ^ (8 * k) % 256) by omega]
          exact hhigh
        have hF2 := div_pow_ne_of_testBit hbit
        rw [hexp, hsplit s, hsplit e,
          div_mod_split (s / 2 ^ (8 * k)) _ (by omega),
          div_mod_split (e / 2 ^ (8 * k)) _ (by omega), hXY]
        intro heq
        omega

/-- The exact characterisation of `commonBits` for 128-bit inputs. -/
theorem commonBits_spec (s e : Nat) (hs : s < addrSpace) (he : e < addrSpace) :
    commonBits s e ≤ 128 ∧
    s / 2 ^ (128 - commonBits s e) = e / 2 ^ (128 - commonBits s e) ∧
    (commonBits s e < 128 →
      s / 2 ^ (127 - commonBits s e) ≠ e / 2 ^ (127 - commonBits s e)) := by
  have h816 : (8 : Nat) * 16 = 128 := by norm_num
  have h0 : s / 2 ^ (8 * 16) = e / 2 ^ (8 * 16) := by
    rw [h816]
    have hs0 : s / 2 ^ 128 = 0 := Nat.div_eq_of_lt (by simpa [addrSpace] using hs)
    have he0 : e / 2 ^ 128 = 0 := Nat.div_eq_of_lt (by simpa [addrSpace] using he)
    rw [hs0, he0]
  obtain ⟨_, hb, hc, hd⟩ := commonBitsFrom_spec s e 16 0 (by norm_num) (by norm_num) h0
  exact ⟨hb, hc, hd⟩

theorem maskAddr_div (a bits : Nat) :
    maskAddr a bits / 2 ^ (128 - bits) = a / 2 ^ (128 - bits) :=
  Nat.mul_div_cancel _ (Nat.two_pow_pos _)

/-- C8: for `start ≤ end` (128-bit addresses), `RangeToCIDR` returns the
smallest CIDR containing the closed interval `[start, end]`: its bit length
is a valid prefix length, it contains every address of the interval, and
every CIDR that contains both endpoints is at least as coarse (so its block
is a superset). -/
theorem c8_rangeToCIDR_smallest (s e : Nat)
    (hs : s < addrSpace) (he : e < addrSpace) (_hse : s ≤ e) :
    (RangeToCIDR s e).bits ≤ 128 ∧
    (∀ x, s ≤ x → x ≤ e → (RangeToCIDR s e).contains x = true) ∧
    (∀ q : Pfx, q.bits ≤ 128 → q.contains s = true → q.contains e = true →
      q.bits ≤ (RangeToCIDR s e).bits ∧
      (∀ x, (RangeToCIDR s e).contains x = true → q.contains x = true)) := by
  obtain ⟨h128, hagree, hdis⟩ := commonBits_spec s e hs he
  have hcont : ∀ x, ((RangeToCIDR s e).contains x = true) ↔
      x / 2 ^ (128 - commonBits s e) = s / 2 ^ (128 - commonBits s e) := by
    intro x
    simp [RangeToCIDR, Pfx.contains, maskAddr_div]
  refine ⟨h128, ?_, ?_⟩
  · intro x hsx hxe
    rw [hcont]
    have h1 : s / 2 ^ (128 - commonBits s e) ≤ x / 2 ^ (128 - commonBits s e) :=
      Nat.div_le_div_right hsx
    have h2 : x / 2 ^ (128 - commonBits s e) ≤ e / 2 ^ (128 - commonBits s e) :=
      Nat.div_le_div_right hxe
    omega
  · intro q hq hqs hqe
    have hqs' : s / 2 ^ (128 - q.bits) = q.addr / 2 ^ (128 - q.bits) := by
      simpa [Pfx.contains] using hqs
    have hqe' : e / 2 ^ (128 - q.bits) = q.addr / 2 ^ (128 - q.bits) := by
      simpa [Pfx.contains] using hqe
    have hbits : q.bits ≤ commonBits s e := by
      by_contra hlt
      push_neg at hlt
      have hcb : commonBits s e < 128 := lt_of_lt_of_le hlt hq
      have hse' : s / 2 ^ (128 - q.bits) = e / 2 ^ (128 - q.bits) := hqs'.trans hqe'.symm
      have hagree' : s / 2 ^ (127 - commonBits s e) = e / 2 ^ (127 - commonBits s e) :=
        div_agree_mono hse' (by omega)
      exact hdis hcb hagree'
    refine ⟨hbits, ?_⟩
    intro x hx
    rw [hcont] at hx
    have hxq : x / 2 ^ (128 - q.bits) = s / 2 ^ (128 - q.bits) :=
      div_agree_mono hx (by omega)
    simp only [Pfx.contains, beq_iff_eq]
    rw [hxq, hqs']

/-- Witness for `c8_rangeToCIDR_smallest`: the unaligned range
`[::1, ::10]` yields `::/123` (which contains both endpoints). -/
theorem c8_rangeToCIDR_smallest_witness :
    RangeToCIDR 1 16 = ⟨0, 123⟩ ∧
    (RangeToCIDR 1 16).contains 1 = true ∧
    (RangeToCIDR 1 16).contains 16 = true := by
  refine ⟨by decide, ?_, ?_⟩
  · exact (c8_rangeToCIDR_smallest 1 16 (by norm_num [addrSpace])
      (by norm_num [addrSpace]) (by norm_num)).2.1 1 (by norm_num) (by norm_num)
  · exact (c8_rangeToCIDR_smallest 1 16 (by norm_num [addrSpace])
      (by norm_num [addrSpace]) (by norm_num)).2.1 16 (by norm_num) (by norm_num)

end DynPfx

namespace DynPfx

/-! ## Theorems: subnet calculation error handling (C4) -/

/-- C4 (amended): `SubnetTooShort` when `prefixLength < base.bits`,
`SubnetLengthInvalid` when `prefixLength > 128`; otherwise, provided the
128-bit sum `base.addr + offset * 2^(128-prefixLength)` does not overflow
`2^128`, the calculation succeeds exactly when the computed network address
is contained in the base prefix and fails with `SubnetOutsideParent`
otherwise; on overflow the Go code panics inside `big.Int.FillBytes`
instead of returning an error. -/
theorem c4_subnet_error_classification (base : Pfx) (cfg : SubnetConfig)
    (hb : base.bits ≤ 128) :
    (cfg.prefixLength < base.bits →
      ValidateSubnetFitsInPrefix base cfg = .error .tooShort) ∧
    (128 < cfg.prefixLength →
      ValidateSubnetFitsInPrefix base cfg = .error .lengthInvalid) ∧
    (base.bits ≤ cfg.prefixLength → cfg.prefixLength ≤ 128 →
      base.addr + cfg.offset * 2 ^ (128 - cfg.prefixLength) < addrSpace →
      ((base.contains (maskAddr (base.addr + cfg.offset * 2 ^ (128 - cfg.prefixLength))
          cfg.prefixLength) = true →
        ValidateSubnetFitsInPrefix base cfg = .ok ()) ∧
       (base.contains (maskAddr (base.addr + cfg.offset * 2 ^ (128 - cfg.prefixLength))
          cfg.prefixLength) = false →
        ValidateSubnetFitsInPrefix base cfg = .error .outsideParent))) ∧
    (base.bits ≤ cfg.prefixLength → cfg.prefixLength ≤ 128 →
      addrSpace ≤ base.addr + cfg.offset * 2 ^ (128 - cfg.prefixLength) →
      ValidateSubnetFitsInPrefix base cfg = .error .fillBytesPanic) := by
  refine ⟨?_, ?_, ?_, ?_⟩
  · intro h
    simp [ValidateSubnetFitsInPrefix, CalculateSubnet, h]
  · intro h
    have h1 : ¬ cfg.prefixLength < base.bits := by omega
    simp [ValidateSubnetFitsInPrefix, CalculateSubnet, h, h1]
  · intro h1 h2 h3
    have h1' : ¬ cfg.prefixLength < base.bits := by omega
    have h2' : ¬ 128 < cfg.prefixLength := by omega
    have h3' : ¬ addrSpace ≤ base.addr + cfg.offset * 2 ^ (128 - cfg.prefixLength) := by omega
    constructor
    · intro hc
      simp [ValidateSubnetFitsInPrefix, CalculateSubnet, h1', h2', h3', hc]
    · intro hc
      simp [ValidateSubnetFitsInPrefix, CalculateSubnet, h1', h2', h3', hc]
  · intro h1 h2 h4
    have h1' : ¬ cfg.prefixLength < base.bits := by omega
    have h2' : ¬ 128 < cfg.prefixLength := by omega
    simp [ValidateSubnetFitsInPrefix, CalculateSubnet, h1', h2', h4]

/-- Witness for `c4_subnet_error_classification`: the Go test vector
`2001:db8::/48`, offset 65536, /64 subnets — one past the last valid /64 —
fails with `SubnetOutsideParent`. -/
theorem c4_subnet_error_classification_witness :
    ValidateSubnetFitsInPrefix ⟨0x20010db8000000000000000000000000, 48⟩
      ⟨"test", 65536, 64⟩ = .error .outsideParent :=
  ((c4_subnet_error_classification ⟨0x20010db8000000000000000000000000, 48⟩
      ⟨"test", 65536, 64⟩ (by decide)).2.2.1 (by decide) (by decide)
      (by decide)).2 (by decide)

/-- Counterexample to C4 as stated: for base `2001:db8::/48` and
configuration `{offset = 2^48, prefixLength = 48}` the computed subnet
network (`base + 2^48 * 2^80 = base + 2^128`) escapes the parent, yet the
code does not return a `SubnetOutsideParent` error: `big.Int.FillBytes`
panics because the sum needs 17 bytes. -/
theorem c4_counterexample :
    ValidateSubnetFitsInPrefix ⟨0x20010db8000000000000000000000000, 48⟩
        ⟨"overflow", 281474976710656, 48⟩ = .error .fillBytesPanic ∧
    (Except.error SubnetErr.fillBytesPanic ≠
      (.error .outsideParent : Except SubnetErr Unit)) ∧
    (Except.error SubnetErr.fillBytesPanic ≠ (.ok () : Except SubnetErr Unit)) := by
  refine ⟨rfl, ?_, ?_⟩ <;> intro h <;> simp at h

/-! ## Address ranges (internal/prefix/addressrange.go) -/

/-- `AddressRangeConfig`: the `Start`/`End` fields are IPv6 literals in Go;
they are modelled by the parsed 128-bit value, `none` standing for a string
that `netip.ParseAddr` rejects. -/
structure AddressRangeConfig where
  name : String
  start : Option Nat
  stop : Option Nat
  deriving Repr, DecidableEq

/-- `AddressRange`: a calculated range with inclusive endpoints. -/
structure AddressRange where
  name : String
  start : Nat
  stop : Nat
  deriving Repr, DecidableEq

/-- Failure modes of `CalculateAddressRange`, in the order the Go code
checks them. -/
inductive RangeErr where
  | startParse
  | endParse
  | startGtEnd
  | startOutside
  | endOutside
  deriving Repr, DecidableEq

/-- `parseOffsetSuffix` from internal/prefix/addressrange.go: overlays the
host bits of `suffix` on the network bits of `basePrefix` (a byte-wise copy
of the first `bits` bits of `basePrefix.Masked()` with the remaining bits —
partial byte included — taken from the suffix). -/
def parseOffsetSuffix (basePrefix : Pfx) (suffix : Nat) : Nat :=
  maskAddr basePrefix.addr basePrefix.bits + suffix % 2 ^ (128 - basePrefix.bits)

/-- `CalculateAddressRange` from internal/prefix/addressrange.go. -/
def CalculateAddressRange (basePrefix : Pfx) (cfg : AddressRangeConfig) :
    Except RangeErr AddressRange :=
  match cfg.start with
  | none => .error .startParse
  | some sSuf =>
    match cfg.stop with
    | none => .error .endParse
    | some eSuf =>
      let startAddr := parseOffsetSuffix basePrefix sSuf
      let endAddr := parseOffsetSuffix basePrefix eSuf
      if endAddr < startAddr then .error .startGtEnd
      else if ¬ basePrefix.contains startAddr then .error .startOutside
      else if ¬ basePrefix.contains endAddr then .error .endOutside
      else .ok ⟨cfg.name, startAddr, endAddr⟩

end DynPfx

namespace DynPfx

/-! ## DynamicPrefix resource controller (part_001: Reconcile status update,
handlePrefixChange) -/

/-- `PrefixState` from api/v1alpha1/dynamicprefix_types.go. -/
inductive PrefixState where
  | active
  | draining
  | expired
  deriving Repr, DecidableEq

/-- `PrefixHistoryEntry`: the stored `Prefix` CIDR string is modelled by its
parsed value (field `pfx`; `prefix` is a Lean keyword), timestamps by
naturals. -/
structure PrefixHistoryEntry where
  pfx : Pfx
  acquiredAt : Nat
  deprecatedAt : Option Nat
  state : PrefixState
  deriving Repr, DecidableEq

/-- `TransitionMode` from the API types. -/
inductive TransitionMode where
  | simple
  | ha
  deriving Repr, DecidableEq

/-- `TransitionSpec`: `maxPrefixHistory = 0` models the unset (omitempty)
field; the reconciler only honours values `> 0`. -/
structure TransitionSpec where
  mode : TransitionMode
  maxPrefixHistory : Nat
  deriving Repr, DecidableEq

/-- The `maxHistory` computation shared by `handlePrefixChange` (and the
pool controller's `getMaxHistory`): the spec value when present and
positive, else the default 2. -/
def maxHistoryOf (transition : Option TransitionSpec) : Nat :=
  match transition with
  | some t => if 0 < t.maxPrefixHistory then t.maxPrefixHistory else 2
  | none => 2

/-- `DynamicPrefixReconciler.handlePrefixChange` (part_001): when the stored
`status.currentPrefix` is non-empty (`some old`), append it to history with
`state = draining` and `deprecatedAt = now` (`acquiredAt` is taken from the
resource's creation timestamp), then truncate the history from the oldest
end to `maxHistory` entries. -/
def handlePrefixChange (now creationTimestamp : Nat)
    (transition : Option TransitionSpec)
    (currentPrefix : Option Pfx) (history : List PrefixHistoryEntry) :
    List PrefixHistoryEntry :=
  match currentPrefix with
  | none => history
  | some old =>
    let history' := history ++ [⟨old, creationTimestamp, some now, .draining⟩]
    let maxHistory := maxHistoryOf transition
    if maxHistory < history'.length then
      history'.drop (history'.length - maxHistory)
    else
      history'

/-- `SubnetStatus` from the API types: the CIDR string is modelled parsed. -/
structure SubnetStatus where
  name : String
  cidr : Pfx
  deriving Repr, DecidableEq

/-- `AddressRangeStatus` from the API types. -/
structure AddressRangeStatus where
  name : String
  start : Nat
  stop : Nat
  cidr : Pfx
  deriving Repr, DecidableEq

/-- The `DynamicPrefixSpec` fields used by the reconciler. -/
structure DPSpec where
  addressRanges : List AddressRangeConfig
  subnets : List SubnetConfig
  transition : Option TransitionSpec
  deriving Repr, DecidableEq

/-- The `DynamicPrefixStatus` fields used by the reconciler.  `degraded`
models the `Degraded` condition's status. -/
structure DPStatus where
  currentPrefix : Option Pfx
  subnets : List SubnetStatus
  addressRanges : List AddressRangeStatus
  history : List PrefixHistoryEntry
  degraded : Bool
  deriving Repr, DecidableEq

/-- `DynamicPrefixReconciler.calculateSubnets` (part_001): returns nil for an
empty spec list, otherwise maps `prefix.CalculateSubnets` results to status
entries (fail-fast). -/
def calculateSubnetsStatus (basePrefix : Pfx) (specs : List SubnetConfig) :
    Except SubnetErr (List SubnetStatus) :=
  match specs with
  | [] => .ok []
  | _ =>
    match CalculateSubnets basePrefix specs with
    | .error e => .error e
    | .ok subs => .ok (subs.map fun s => ⟨s.name, s.cidr⟩)

/-- The status-update portion of `DynamicPrefixReconciler.Reconcile`
(part_001, lines 133–166) once the receiver reports a prefix: push the old
current prefix through `handlePrefixChange` when the network changed, set
`status.currentPrefix`, recompute `status.subnets` (leaving them untouched
and setting `Degraded=True` when the subnet math fails, `Degraded=False`
otherwise).  `status.addressRanges` is not touched by any branch. -/
def reconcileStatusUpdate (now creationTs : Nat) (spec : DPSpec)
    (st : DPStatus) (received : Pfx) : DPStatus :=
  let history1 :=
    if st.currentPrefix = some received then st.history
    else handlePrefixChange now creationTs spec.transition st.currentPrefix st.history
  match calculateSubnetsStatus received spec.subnets with
  | .error _ =>
    { st with currentPrefix := some received, history := history1, degraded := true }
  | .ok subs =>
    { st with currentPrefix := some received, history := history1,
              subnets := subs, degraded := false }

/-! ## Theorems: history bound and transition entries (C3) -/

/-- C3: the default history cap is 2 and the cap is always at least 1; a
reconcile that does not observe a change (or observes the first acquisition,
`currentPrefix = none`) preserves `|history| ≤ maxPrefixHistory`; and on a
change away from a non-empty current prefix the old prefix is appended with
`state = draining` and `deprecatedAt = now`, the history is truncated from
the oldest end, and the bound `|history| ≤ maxPrefixHistory` holds
afterwards unconditionally. -/
theorem c3_history_bounded (now cts : Nat) (transition : Option TransitionSpec)
    (current : Option Pfx) (history : List PrefixHistoryEntry) :
    maxHistoryOf none = 2 ∧
    1 ≤ maxHistoryOf transition ∧
    (history.length ≤ maxHistoryOf transition →
      (handlePrefixChange now cts transition current history).length ≤
        maxHistoryOf transition) ∧
    (∀ old, current = some old →
      handlePrefixChange now cts transition current history =
        (history ++ [(⟨old, cts, some now, PrefixState.draining⟩ :
            PrefixHistoryEntry)]).drop
          (history.length + 1 - maxHistoryOf transition) ∧
      (handlePrefixChange now cts transition current history).length ≤
        maxHistoryOf transition) := by
  have hmax1 : 1 ≤ maxHistoryOf transition := by
    cases transition with
    | none => simp [maxHistoryOf]
    | some t =>
      simp only [maxHistoryOf]
      split <;> omega
  have hsome : ∀ old, current = some old →
      handlePrefixChange now cts transition current history =
        (history ++ [(⟨old, cts, some now, PrefixState.draining⟩ :
            PrefixHistoryEntry)]).drop
          (history.length + 1 - maxHistoryOf transition) := by
    intro old hcur
    subst hcur
    simp only [handlePrefixChange]
    have hlen : (history ++ [(⟨old, cts, some now, PrefixState.draining⟩ :
        PrefixHistoryEntry)]).length = history.length + 1 := by
      simp
    split
    · rw [hlen]
    · rename_i hle
      rw [hlen] at hle
      have h0 : history.length + 1 - maxHistoryOf transition = 0 := by omega
      rw [h0, List.drop_zero]
  refine ⟨rfl, hmax1, ?_, ?_⟩
  · intro hbound
    cases current with
    | none => simpa [handlePrefixChange] using hbound
    | some old =>
      rw [hsome old rfl]
      simp only [List.length_drop, List.length_append, List.length_singleton]
      omega
  · intro old hcur
    refine ⟨hsome old hcur, ?_⟩
    rw [hsome old hcur]
    simp only [List.length_drop, List.length_append, List.length_singleton]
    omega

/-- Witness for `c3_history_bounded`: a change from `2001:db8:1::/48` with a
full two-entry history under the default cap keeps two entries, drops the
oldest and appends the drained old prefix. -/
theorem c3_history_bounded_witness :
    handlePrefixChange 5 1 none
      (some ⟨0x20010db8000100000000000000000000, 48⟩)
      [⟨⟨2, 48⟩, 0, none, .active⟩, ⟨⟨3, 48⟩, 0, none, .active⟩] =
      [⟨⟨3, 48⟩, 0, none, .active⟩,
       ⟨⟨0x20010db8000100000000000000000000, 48⟩, 1, some 5, .draining⟩] ∧
    (handlePrefixChange 5 1 none
      (some ⟨0x20010db8000100000000000000000000, 48⟩)
      [⟨⟨2, 48⟩, 0, none, .active⟩, ⟨⟨3, 48⟩, 0, none, .active⟩]).length ≤
      maxHistoryOf none := by
  constructor
  · have h := ((c3_history_bounded 5 1 none
      (some ⟨0x20010db8000100000000000000000000, 48⟩)
      [⟨⟨2, 48⟩, 0, none, .active⟩, ⟨⟨3, 48⟩, 0, none, .active⟩]).2.2.2
      ⟨0x20010db8000100000000000000000000, 48⟩ rfl).1
    rw [h]
    decide
  · exact ((c3_history_bounded 5 1 none
      (some ⟨0x20010db8000100000000000000000000, 48⟩)
      [⟨⟨2, 48⟩, 0, none, .active⟩, ⟨⟨3, 48⟩, 0, none, .active⟩]).2.2.2
      ⟨0x20010db8000100000000000000000000, 48⟩ rfl).2

/-! ## Theorems: address-range status projection (C2) -/

/-- C2 evidence: no branch of the reconcile status update writes
`status.addressRanges` (it stays exactly as it was, in particular empty),
even though the repository's own `CalculateAddressRange` computes the entry
the specification expects for `2001:db8:1::/48` and the range
`::f000:0:0:0 .. ::ffff:ffff:ffff:ffff`, namely
`2001:db8:1:0:f000:: .. 2001:db8:1:0:ffff:ffff:ffff:ffff`. -/
theorem c2_reconcile_never_stores_address_ranges :
    (∀ (now cts : Nat) (spec : DPSpec) (st : DPStatus) (received : Pfx),
      (reconcileStatusUpdate now cts spec st received).addressRanges =
        st.addressRanges) ∧
    CalculateAddressRange ⟨0x20010db8000100000000000000000000, 48⟩
        ⟨"lb", some 0xf000000000000000, some 0xffffffffffffffff⟩ =
      .ok ⟨"lb", 0x20010db800010000f000000000000000,
           0x20010db800010000ffffffffffffffff⟩ ∧
    (reconcileStatusUpdate 0 0
        ⟨[⟨"lb", some 0xf000000000000000, some 0xffffffffffffffff⟩], [], none⟩
        ⟨none, [], [], [], false⟩
        ⟨0x20010db8000100000000000000000000, 48⟩).addressRanges = [] := by
  refine ⟨?_, rfl, rfl⟩
  intro now cts spec st received
  unfold reconcileStatusUpdate
  split <;> split <;> rfl

/-! ## RA receiver prefix selection (part_003, `handleRouterAdvertisement`).
part_002 holds an earlier revision of the same method that additionally
required the autonomous flag; the current revision (part_003) deliberately
checks only the on-link flag and the valid lifetime. -/

/-- `ndp.PrefixInformation` fields used by the receiver; the prefix address
is a 128-bit value (the receiver only handles IPv6). -/
structure PrefixInformation where
  onLink : Bool
  autonomous : Bool
  validLifetime : Nat
  preferredLifetime : Nat
  prefixAddr : Nat
  prefixLength : Nat
  deriving Repr, DecidableEq

/-- `isGlobalUnicast`: first three bits are 001 (`(b[0] & 0xE0) == 0x20`). -/
def isGlobalUnicast (a : Nat) : Bool := byteAt a 0 &&& 0xE0 == 0x20

/-- `isULA`: first seven bits are 1111110 (`(b[0] & 0xFE) == 0xFC`). -/
def isULA (a : Nat) : Bool := byteAt a 0 &&& 0xFE == 0xFC

/-- The candidate-selection loop of `RAReceiver.handleRouterAdvertisement`
(part_003): skip options that are not on-link or have a zero valid
lifetime, prefer the first global-unicast candidate, fall back to the first
unique-local one.  The autonomous flag is not inspected. -/
def selectBestPrefix : List PrefixInformation → Option PrefixInformation →
    Option PrefixInformation
  | [], best => best
  | p :: rest, best =>
    if ! p.onLink then selectBestPrefix rest best
    else if p.validLifetime = 0 then selectBestPrefix rest best
    else if isGlobalUnicast p.prefixAddr then
      match best with
      | none => selectBestPrefix rest (some p)
      | some b =>
        if ! isGlobalUnicast b.prefixAddr then selectBestPrefix rest (some p)
        else selectBestPrefix rest best
    else if isULA p.prefixAddr then
      match best with
      | none => selectBestPrefix rest (some p)
      | some _ => selectBestPrefix rest best
    else selectBestPrefix rest best

/-- The selection loop of the superseded revision in part_002, which also
discards options whose autonomous flag is false. -/
def selectBestPrefixOld : List PrefixInformation → Option PrefixInformation →
    Option PrefixInformation
  | [], best => best
  | p :: rest, best =>
    if ! p.onLink || ! p.autonomous then selectBestPrefixOld rest best
    else if p.validLifetime = 0 then selectBestPrefixOld rest best
    else if isGlobalUnicast p.prefixAddr then
      match best with
      | none => selectBestPrefixOld rest (some p)
      | some b =>
        if ! isGlobalUnicast b.prefixAddr then selectBestPrefixOld rest (some p)
        else selectBestPrefixOld rest best
    else if isULA p.prefixAddr then
      match best with
      | none => selectBestPrefixOld rest (some p)
      | some _ => selectBestPrefixOld rest best
    else selectBestPrefixOld rest best

end DynPfx

namespace DynPfx

/-! ## Composite receiver (internal/prefix/composite_receiver.go) -/

/-- `EventType` from the receiver interface. -/
inductive EventType where
  | acquired
  | renewed
  | changed
  | expired
  | failed
  deriving Repr, DecidableEq

/-- `Event`: the optional prefix payload; the error payload of `failed`
events is opaque and not modelled. -/
structure Event where
  type : EventType
  pfx : Option Pfx
  deriving Repr, DecidableEq

/-- The composite receiver state touched by `handlePrimaryEvent`:
`consecutiveFailures` and whether `active == fallback`. -/
structure CompositeState where
  consecutiveFailures : Nat
  activeIsFallback : Bool
  deriving Repr, DecidableEq

/-- `maxFailures` set by `NewCompositeReceiver`. -/
def maxFailures : Nat := 3

/-- `CompositeReceiver.handlePrimaryEvent`: given the fallback receiver's
current prefix at the moment the event is processed, returns the new state
and the ordered list of events sent on the composite channel (the bounded
channel's drop-on-overflow policy is not modelled). -/
def handlePrimaryEvent (fallbackPrefix : Option Pfx) (s : CompositeState)
    (ev : Event) : CompositeState × List Event :=
  match ev.type with
  | .failed =>
    let failures := s.consecutiveFailures + 1
    if maxFailures ≤ failures then
      match fallbackPrefix with
      | some fp => (⟨failures, true⟩, [⟨.acquired, some fp⟩, ev])
      | none => (⟨failures, true⟩, [ev])
    else
      (⟨failures, s.activeIsFallback⟩, [ev])
  | .acquired => (⟨0, false⟩, [ev])
  | .renewed => (⟨0, false⟩, [ev])
  | .changed => (⟨0, false⟩, [ev])
  | .expired =>
    match fallbackPrefix with
    | some fp => (⟨s.consecutiveFailures, true⟩, [⟨.acquired, some fp⟩])
    | none => (s, [ev])

/-- Processing a sequence of primary events, collecting emissions in order. -/
def processPrimaryEvents (fallbackPrefix : Option Pfx) :
    CompositeState → List Event → CompositeState × List Event
  | s, [] => (s, [])
  | s, ev :: rest =>
    let r1 := handlePrimaryEvent fallbackPrefix s ev
    let r2 := processPrimaryEvents fallbackPrefix r1.1 rest
    (r2.1, r1.2 ++ r2.2)

/-! ## Receiver Stop methods (C10) -/

/-- Result of a `Stop()` call: Go's `close` on an already-closed channel
panics at runtime. -/
inductive StopResult where
  | ok
  | panicClosedChannel
  deriving Repr, DecidableEq

/-- The mutable state a `Stop` method touches: the `started` flag and
whether `stopCh` has been closed. -/
structure StopState where
  started : Bool
  stopChClosed : Bool
  deriving Repr, DecidableEq

/-- Go `close(ch)`: panics when the channel is already closed. -/
def closeChan (closed : Bool) : Bool × StopResult :=
  if closed then (true, .panicClosedChannel) else (true, .ok)

/-- `RAReceiver.Stop` (part_002/part_003): returns immediately when not
started, otherwise clears `started` and closes `stopCh`. -/
def raStop (st : StopState) : StopState × StopResult :=
  if ! st.started then (st, .ok)
  else
    let c := closeChan st.stopChClosed
    (⟨false, c.1⟩, c.2)

/-- `DHCPv6PDReceiver.Stop` (internal/prefix/dhcpv6pd_receiver.go): same
guard as the RA receiver. -/
def dhcpv6pdStop (st : StopState) : StopState × StopResult :=
  if ! st.started then (st, .ok)
  else
    let c := closeChan st.stopChClosed
    (⟨false, c.1⟩, c.2)

/-- `CompositeReceiver.Stop` (internal/prefix/composite_receiver.go): same
guard; the children are stopped only inside the guarded branch. -/
def compositeStop (st : StopState) : StopState × StopResult :=
  if ! st.started then (st, .ok)
  else
    let c := closeChan st.stopChClosed
    (⟨false, c.1⟩, c.2)

/-- `MockReceiver.Stop` (part_004): clears `started` and closes `stopCh`
without any guard. -/
def mockStop (st : StopState) : StopState × StopResult :=
  let c := closeChan st.stopChClosed
  (⟨false, c.1⟩, c.2)

/-! ## Receiver factory requested prefix length (part_004,
`DefaultReceiverFactory.createDHCPv6PDReceiver`; internal/prefix/
dhcpv6pd_receiver.go, `NewDHCPv6PDReceiver`) -/

/-- `DHCPv6PDSpec` fields used by the factory: `RequestedPrefixLength` is
`*int` (the CRD schema restricts present values to 48..64). -/
structure DHCPv6PDSpecM where
  iface : String
  requestedPrefixLength : Option Nat
  deriving Repr, DecidableEq

/-- `NewDHCPv6PDReceiver`: a zero requested length falls back to the
default 56; any other value is stored unchanged. -/
def newReceiverRequestedLength (requestedPrefixLength : Nat) : Nat :=
  if requestedPrefixLength = 0 then 56 else requestedPrefixLength

/-- `createDHCPv6PDReceiver`: requires a non-empty interface, defaults a nil
`RequestedPrefixLength` to 56 and otherwise passes the value through to
`NewDHCPv6PDReceiver`.  The result is the receiver's
`requestedPrefixLength` field. -/
def factoryRequestedLength (spec : DHCPv6PDSpecM) : Except Unit Nat :=
  if spec.iface = "" then .error ()
  else
    let prefixLength := match spec.requestedPrefixLength with
      | none => 56
      | some v => v
    .ok (newReceiverRequestedLength prefixLength)

/-- Modelled from the spec's words for C9: "clamped to the range 48..64". -/
def clamp48to64 (v : Nat) : Nat := min 64 (max 48 v)

/-! ## Theorems: RA candidate selection ignores the autonomous flag (C7) -/

theorem selectBestPrefix_map_autonomous (g : PrefixInformation → Bool) :
    ∀ (opts : List PrefixInformation) (best : Option PrefixInformation),
    selectBestPrefix (opts.map fun p => { p with autonomous := g p })
        (best.map fun p => { p with autonomous := g p }) =
      (selectBestPrefix opts best).map fun p => { p with autonomous := g p } := by
  intro opts
  induction opts with
  | nil => intro best; simp [selectBestPrefix]
  | cons p rest ih =>
    intro best
    cases best with
    | none =>
      by_cases h1 : p.onLink <;> by_cases h2 : p.validLifetime = 0 <;>
        by_cases h3 : isGlobalUnicast p.prefixAddr <;>
        by_cases h4 : isULA p.prefixAddr <;>
        simp [selectBestPrefix, h1, h2, h3, h4] <;>
        first
          | simpa [h1, h2, h3, h4] using ih none
          | simpa [h1, h2, h3, h4] using ih (some p)
    | some b =>
      by_cases h1 : p.onLink <;> by_cases h2 : p.validLifetime = 0 <;>
        by_cases h3 : isGlobalUnicast p.prefixAddr <;>
        by_cases h4 : isULA p.prefixAddr <;>
        by_cases h5 : isGlobalUnicast b.prefixAddr <;>
        simp [selectBestPrefix, h1, h2, h3, h4, h5] <;>
        first
          | simpa [h1, h2, h3, h4, h5] using ih (some b)
          | simpa [h1, h2, h3, h4, h5] using ih (some p)

/-- C7: the RA candidate selection (part_003) does not depend on the
autonomous address-configuration flag — rewriting that flag arbitrarily on
every option commutes with the selection — and an on-link option with a
non-zero valid lifetime is selected even with `autonomous = false`. -/
theorem c7_autonomous_flag_ignored :
    (∀ (opts : List PrefixInformation) (g : PrefixInformation → Bool),
      selectBestPrefix (opts.map fun p => { p with autonomous := g p }) none =
        (selectBestPrefix opts none).map fun p => { p with autonomous := g p }) ∧
    (∀ p : PrefixInformation, p.onLink = true → p.validLifetime ≠ 0 →
      (isGlobalUnicast p.prefixAddr = true ∨ isULA p.prefixAddr = true) →
      selectBestPrefix [p] none = some p) := by
  constructor
  · intro opts g
    exact selectBestPrefix_map_autonomous g opts none
  · intro p h1 h2 h3
    rcases h3 with h3 | h3 <;> simp [selectBestPrefix, h1, h2, h3]

/-- Witness for `c7_autonomous_flag_ignored`: a global-unicast on-link
option for `2001:db8::/56` with `autonomous = false` is selected. -/
theorem c7_autonomous_flag_ignored_witness :
    selectBestPrefix
      [⟨true, false, 3600, 1800, 0x20010db8000000000000000000000000, 56⟩] none =
      some ⟨true, false, 3600, 1800, 0x20010db8000000000000000000000000, 56⟩ :=
  c7_autonomous_flag_ignored.2
    ⟨true, false, 3600, 1800, 0x20010db8000000000000000000000000, 56⟩
    rfl (by decide) (Or.inl (by decide))

/-! ## Theorems: composite failover after three failures (C5) -/

/-- C5: after three consecutive `failed` events from the primary with no
intervening success, the composite's active receiver is the fallback; when
the fallback holds a prefix an `acquired` event carrying that prefix is
emitted; and any successful primary event (`acquired`, `renewed`,
`changed`) resets the consecutive-failure counter (and marks the primary
active again). -/
theorem c5_composite_failover (fb : Option Pfx) (s : CompositeState) :
    (processPrimaryEvents fb s
      [⟨.failed, none⟩, ⟨.failed, none⟩, ⟨.failed, none⟩]).1.activeIsFallback = true ∧
    (∀ fp, fb = some fp →
      (⟨.acquired, some fp⟩ : Event) ∈
        (processPrimaryEvents fb s
          [⟨.failed, none⟩, ⟨.failed, none⟩, ⟨.failed, none⟩]).2) ∧
    (∀ (s' : CompositeState) (ev : Event),
      (ev.type = .acquired ∨ ev.type = .renewed ∨ ev.type = .changed) →
      (handlePrimaryEvent fb s' ev).1.consecutiveFailures = 0 ∧
      (handlePrimaryEvent fb s' ev).1.activeIsFallback = false) := by
  refine ⟨?_, ?_, ?_⟩
  · rcases s with ⟨c, a⟩
    cases fb <;>
      simp [processPrimaryEvents, handlePrimaryEvent, maxFailures] <;>
      split_ifs <;> simp_all
  · intro fp hfb
    subst hfb
    rcases s with ⟨c, a⟩
    simp [processPrimaryEvents, handlePrimaryEvent, maxFailures]
    split_ifs <;> simp_all
  · intro s' ev hev
    rcases hev with h | h | h <;>
      rcases ev with ⟨t, pl⟩ <;> subst h <;>
      simp [handlePrimaryEvent]

/-- Witness for `c5_composite_failover`: starting from a fresh composite
state with the fallback holding `2001:db8:9::/48`, three failures flip to
the fallback and synthesize the `acquired` event. -/
theorem c5_composite_failover_witness :
    (processPrimaryEvents (some ⟨0x20010db8000900000000000000000000, 48⟩) ⟨0, false⟩
      [⟨.failed, none⟩, ⟨.failed, none⟩, ⟨.failed, none⟩]).1.activeIsFallback = true ∧
    (⟨.acquired, some ⟨0x20010db8000900000000000000000000, 48⟩⟩ : Event) ∈
      (processPrimaryEvents (some ⟨0x20010db8000900000000000000000000, 48⟩) ⟨0, false⟩
        [⟨.failed, none⟩, ⟨.failed, none⟩, ⟨.failed, none⟩]).2 :=
  ⟨(c5_composite_failover (some ⟨0x20010db8000900000000000000000000, 48⟩) ⟨0, false⟩).1,
   (c5_composite_failover (some ⟨0x20010db8000900000000000000000000, 48⟩) ⟨0, false⟩).2.1
     ⟨0x20010db8000900000000000000000000, 48⟩ rfl⟩

/-! ## Theorems: Stop idempotence (C10) -/

/-- C10 evidence: the RA, DHCPv6-PD and composite receivers' `Stop` methods
are idempotent (a second call after any first call returns ok), but
`MockReceiver.Stop` is not: after a successful first `Stop` from the
started state, a second call panics closing the already-closed `stopCh`. -/
theorem c10_stop_idempotent_except_mock :
    (∀ st : StopState, (raStop (raStop st).1).2 = .ok) ∧
    (∀ st : StopState, (dhcpv6pdStop (dhcpv6pdStop st).1).2 = .ok) ∧
    (∀ st : StopState, (compositeStop (compositeStop st).1).2 = .ok) ∧
    (mockStop ⟨true, false⟩).2 = .ok ∧
    (mockStop (mockStop ⟨true, false⟩).1).2 = .panicClosedChannel := by
  refine ⟨?_, ?_, ?_, rfl, rfl⟩ <;>
    intro st <;> rcases st with ⟨s, c⟩ <;> cases s <;> cases c <;> rfl

/-! ## Theorems: requested prefix length (C9) -/

/-- Counterexample to C9 as stated: a requested length of 80 (outside the
CRD-validated range) is passed through unclamped; the claim's clamp would
give 64. -/
theorem c9_counterexample :
    factoryRequestedLength ⟨"eth0", some 80⟩ = .ok 80 ∧
    clamp48to64 80 = 64 ∧ (80 : Nat) ≠ 64 := by
  exact ⟨rfl, rfl, by decide⟩

/-- C9 (amended): the receiver's requested prefix length is 56 when the
spec leaves it unspecified, and otherwise the specified value unchanged —
no clamping is performed in code; on the CRD-admissible range 48..64 the
value coincides with its clamp to 48..64. -/
theorem c9_requested_length (spec : DHCPv6PDSpecM) (hif : spec.iface ≠ "") :
    (spec.requestedPrefixLength = none → factoryRequestedLength spec = .ok 56) ∧
    (∀ v, spec.requestedPrefixLength = some v → 48 ≤ v → v ≤ 64 →
      factoryRequestedLength spec = .ok v ∧ v = clamp48to64 v) := by
  constructor
  · intro h
    simp [factoryRequestedLength, hif, h, newReceiverRequestedLength]
  · intro v hv h48 h64
    constructor
    · have hvne : ¬ v = 0 := by omega
      simp [factoryRequestedLength, hif, hv, newReceiverRequestedLength, hvne]
    · simp only [clamp48to64]
      omega

/-- Witness for `c9_requested_length`: nil gives 56; an explicit 60 is kept. -/
theorem c9_requested_length_witness :
    factoryRequestedLength ⟨"eth0", none⟩ = .ok 56 ∧
    factoryRequestedLength ⟨"eth0", some 60⟩ = .ok 60 :=
  ⟨(c9_requested_length ⟨"eth0", none⟩ (by decide)).1 rfl,
   ((c9_requested_length ⟨"eth0", some 60⟩ (by decide)).2 60 rfl
     (by decide) (by decide)).1⟩

end DynPfx

namespace DynPfx

/-! ## Pool projection controller (internal/controller/poolsync_controller.go) -/

/-- A `spec.blocks` entry of a CiliumLoadBalancerIPPool: a CIDR block or a
precise start/stop range (Cilium spells the end "stop").  String fields are
modelled parsed; `none` models the empty string. -/
inductive Block where
  | cidrBlock (c : Option Pfx)
  | rangeBlock (start stop : Nat)
  deriving Repr, DecidableEq

/-- The pool annotations read by the controller (`dynamic-prefix.io/name`,
`dynamic-prefix.io/subnet`, `dynamic-prefix.io/address-range`); `none`
models an absent or empty value. -/
structure PoolAnnots where
  name : Option String
  subnet : Option String
  addrRange : Option String
  deriving Repr, DecidableEq

/-- An annotated CiliumLoadBalancerIPPool: the mode annotations, the
`dynamic-prefix.io/last-sync` annotation (modelled as a parsed timestamp)
and `spec.blocks`. -/
structure Pool where
  annots : PoolAnnots
  lastSync : Option Nat
  blocks : List Block
  deriving Repr, DecidableEq

/-- `poolConfiguration` from poolsync_controller.go. -/
structure PoolConfiguration where
  useAddressRange : Bool
  start : Option Nat
  stop : Option Nat
  cidr : Option Pfx
  deriving Repr, DecidableEq

/-- `findAddressRangeSpec`: first spec entry with the given name. -/
def findAddressRangeSpecP (spec : DPSpec) (n : String) : Option AddressRangeConfig :=
  spec.addressRanges.find? (fun r => r.name = n)

/-- `findAddressRangeInStatus`. -/
def findAddressRangeInStatus (st : DPStatus) (n : String) : Option PoolConfiguration :=
  (st.addressRanges.find? (fun r => r.name = n)).map
    (fun ar => ⟨true, some ar.start, some ar.stop, some ar.cidr⟩)

/-- `findSubnetSpec`. -/
def findSubnetSpecP (spec : DPSpec) (n : String) : Option SubnetConfig :=
  spec.subnets.find? (fun r => r.name = n)

/-- `findSubnetInStatus`. -/
def findSubnetInStatus (st : DPStatus) (n : String) : Option PoolConfiguration :=
  (st.subnets.find? (fun r => r.name = n)).map
    (fun s0 => ⟨false, none, none, some s0.cidr⟩)

/-- `calculateAddressRangeConfig`: range math plus `RangeToCIDR` for the
approximate CIDR field. -/
def calculateAddressRangeConfig (basePrefix : Pfx) (rangeSpec : AddressRangeConfig) :
    Except Unit PoolConfiguration :=
  match CalculateAddressRange basePrefix rangeSpec with
  | .error _ => .error ()
  | .ok ar => .ok ⟨true, some ar.start, some ar.stop, some (RangeToCIDR ar.start ar.stop)⟩

/-- `calculateSubnetConfig`. -/
def calculateSubnetConfigP (basePrefix : Pfx) (subnetSpec : SubnetConfig) :
    Except Unit PoolConfiguration :=
  match CalculateSubnet basePrefix subnetSpec with
  | .error _ => .error ()
  | .ok s0 => .ok ⟨false, none, none, some s0.cidr⟩

/-- The per-history loop shared by the two build functions: entries beyond
`maxHistory` are skipped by the index check, and a failing per-historical
computation is logged and skipped. -/
def histConfigs (calcFn : Pfx → Except Unit PoolConfiguration)
    (entries : List PrefixHistoryEntry) : List PoolConfiguration :=
  entries.filterMap (fun h0 =>
    match calcFn h0.pfx with
    | .error _ => none
    | .ok c => some c)

/-- `buildAddressRangeConfigs`: current configuration from the precomputed
status entry when present, else computed from the spec; history entries are
recomputed from the spec when it exists. -/
def buildAddressRangeConfigs (spec : DPSpec) (st : DPStatus) (cur : Pfx)
    (rangeName : String) (maxHistory : Nat) :
    Except Unit (List PoolConfiguration) :=
  let rangeSpec := findAddressRangeSpecP spec rangeName
  let currentConfig : Except Unit PoolConfiguration :=
    match findAddressRangeInStatus st rangeName with
    | some c => .ok c
    | none =>
      match rangeSpec with
      | none => .error ()
      | some rs => calculateAddressRangeConfig cur rs
  match currentConfig with
  | .error e => .error e
  | .ok c =>
    match rangeSpec with
    | some rs =>
      .ok (c :: histConfigs (fun p => calculateAddressRangeConfig p rs)
        (st.history.take maxHistory))
    | none => .ok [c]

/-- `buildSubnetConfigs` (same pattern for subnet mode). -/
def buildSubnetConfigs (spec : DPSpec) (st : DPStatus) (cur : Pfx)
    (subnetName : String) (maxHistory : Nat) :
    Except Unit (List PoolConfiguration) :=
  let subnetSpec := findSubnetSpecP spec subnetName
  let currentConfig : Except Unit PoolConfiguration :=
    match findSubnetInStatus st subnetName with
    | some c => .ok c
    | none =>
      match subnetSpec with
      | none => .error ()
      | some ss => calculateSubnetConfigP cur ss
  match currentConfig with
  | .error e => .error e
  | .ok c =>
    match subnetSpec with
    | some ss =>
      .ok (c :: histConfigs (fun p => calculateSubnetConfigP p ss)
        (st.history.take maxHistory))
    | none => .ok [c]

/-- `buildRawPrefixConfigs`: the raw current prefix then the raw history. -/
def buildRawPrefixConfigs (st : DPStatus) (cur : Pfx) (maxHistory : Nat) :
    List PoolConfiguration :=
  ⟨false, none, none, some cur⟩ ::
    (st.history.take maxHistory).map (fun h0 => ⟨false, none, none, some h0.pfx⟩)

/-- `buildPoolConfigurations`: requires a current prefix, then dispatches on
the address-range / subnet / raw mode annotations. -/
def buildPoolConfigurations (spec : DPSpec) (st : DPStatus) (annots : PoolAnnots) :
    Except Unit (List PoolConfiguration) :=
  match st.currentPrefix with
  | none => .error ()
  | some cur =>
    let maxHistory := maxHistoryOf spec.transition
    match annots.addrRange with
    | some rn => buildAddressRangeConfigs spec st cur rn maxHistory
    | none =>
      match annots.subnet with
      | some sn => buildSubnetConfigs spec st cur sn maxHistory
      | none => .ok (buildRawPrefixConfigs st cur maxHistory)

/-- The block written for one configuration by `updateLoadBalancerIPPool`:
start/stop when the configuration is a complete address range, else a CIDR
block. -/
def blockOfConfig (c : PoolConfiguration) : Block :=
  match c.useAddressRange, c.start, c.stop with
  | true, some s, some e => .rangeBlock s e
  | _, _, _ => .cidrBlock c.cidr

/-- `updateLoadBalancerIPPool` composed with `setLastSyncAnnotation`:
replaces `spec.blocks` with the blocks of all configurations, stamps the
last-sync annotation with the current time, and issues the write
(`r.Update`) unconditionally. -/
def updateLoadBalancerIPPool (now : Nat) (pool : Pool)
    (configs : List PoolConfiguration) : Pool :=
  { pool with blocks := configs.map blockOfConfig, lastSync := some now }

/-- Outcome of one pool reconcile: skipped (no name annotation), requeued
(lookup/build failure), or a write of the new pool object. -/
inductive PoolOutcome where
  | skip
  | requeue
  | write (newPool : Pool)
  deriving Repr, DecidableEq

/-- `PoolSyncReconciler.Reconcile` for a CiliumLoadBalancerIPPool, given the
referenced DynamicPrefix (spec and status) already fetched: build the
configurations and, unless that fails, write the updated pool — there is no
content comparison before `r.Update`. -/
def reconcilePool (spec : DPSpec) (st : DPStatus) (pool : Pool) (now : Nat) :
    PoolOutcome :=
  match pool.annots.name with
  | none => .skip
  | some _ =>
    match buildPoolConfigurations spec st pool.annots with
    | .error _ => .requeue
    | .ok [] => .requeue
    | .ok configs => .write (updateLoadBalancerIPPool now pool configs)

end DynPfx

namespace DynPfx

/-! ## Theorems: pool projection reconcile is not write-free on a second run (C6) -/

/-- Counterexample to C6 as stated: on an unchanged DynamicPrefix and
unchanged pool, the second reconcile still writes — the update path has no
content comparison and refreshes the last-sync annotation. -/
theorem c6_counterexample :
    reconcilePool ⟨[], [⟨"lb", 0, 64⟩], none⟩
        ⟨some ⟨0x20010db8000000000000000000000000, 48⟩,
         [⟨"lb", ⟨0x20010db8000000000000000000000000, 64⟩⟩], [], [], false⟩
        ⟨⟨some "home", some "lb", none⟩, none, []⟩ 100 =
      .write ⟨⟨some "home", some "lb", none⟩, some 100,
        [.cidrBlock (some ⟨0x20010db8000000000000000000000000, 64⟩)]⟩ ∧
    reconcilePool ⟨[], [⟨"lb", 0, 64⟩], none⟩
        ⟨some ⟨0x20010db8000000000000000000000000, 48⟩,
         [⟨"lb", ⟨0x20010db8000000000000000000000000, 64⟩⟩], [], [], false⟩
        ⟨⟨some "home", some "lb", none⟩, some 100,
         [.cidrBlock (some ⟨0x20010db8000000000000000000000000, 64⟩)]⟩ 200 =
      .write ⟨⟨some "home", some "lb", none⟩, some 200,
        [.cidrBlock (some ⟨0x20010db8000000000000000000000000, 64⟩)]⟩ ∧
    (⟨⟨some "home", some "lb", none⟩, some 200,
        [.cidrBlock (some ⟨0x20010db8000000000000000000000000, 64⟩)]⟩ : Pool) ≠
      ⟨⟨some "home", some "lb", none⟩, some 100,
        [.cidrBlock (some ⟨0x20010db8000000000000000000000000, 64⟩)]⟩ := by
  refine ⟨rfl, rfl, by decide⟩

/-- C6 (amended): a second reconcile on unchanged inputs performs another
write, but it is content-identical on the projected field — the new pool
differs from the first run's result only in the last-sync timestamp
(`spec.blocks` and the mode annotations are reproduced unchanged). -/
theorem c6_second_run_rewrites_only_last_sync (spec : DPSpec) (st : DPStatus)
    (pool p1 : Pool) (now1 now2 : Nat)
    (h : reconcilePool spec st pool now1 = .write p1) :
    reconcilePool spec st p1 now2 = .write { p1 with lastSync := some now2 } := by
  unfold reconcilePool at h ⊢
  cases hname : pool.annots.name with
  | none => simp [hname] at h
  | some n =>
    simp only [hname] at h
    cases hbuild : buildPoolConfigurations spec st pool.annots with
    | error e => simp [hbuild] at h
    | ok configs =>
      simp only [hbuild] at h
      cases configs with
      | nil => simp at h
      | cons c cs =>
        simp only at h
        have hp1 : updateLoadBalancerIPPool now1 pool (c :: cs) = p1 := by
          injection h
        subst hp1
        have hann : (updateLoadBalancerIPPool now1 pool (c :: cs)).annots =
            pool.annots := rfl
        simp only [hann, hname, hbuild]
        rfl

/-- Witness for `c6_second_run_rewrites_only_last_sync` at the
counterexample's first-run result. -/
theorem c6_second_run_rewrites_only_last_sync_witness :
    reconcilePool ⟨[], [⟨"lb", 0, 64⟩], none⟩
        ⟨some ⟨0x20010db8000000000000000000000000, 48⟩,
         [⟨"lb", ⟨0x20010db8000000000000000000000000, 64⟩⟩], [], [], false⟩
        ⟨⟨some "home", some "lb", none⟩, some 100,
         [.cidrBlock (some ⟨0x20010db8000000000000000000000000, 64⟩)]⟩ 200 =
      .write ⟨⟨some "home", some "lb", none⟩, some 200,
        [.cidrBlock (some ⟨0x20010db8000000000000000000000000, 64⟩)]⟩ :=
  c6_second_run_rewrites_only_last_sync ⟨[], [⟨"lb", 0, 64⟩], none⟩
    ⟨some ⟨0x20010db8000000000000000000000000, 48⟩,
     [⟨"lb", ⟨0x20010db8000000000000000000000000, 64⟩⟩], [], [], false⟩
    ⟨⟨some "home", some "lb", none⟩, none, []⟩
    ⟨⟨some "home", some "lb", none⟩, some 100,
     [.cidrBlock (some ⟨0x20010db8000000000000000000000000, 64⟩)]⟩ 100 200 rfl

end DynPfx

namespace DynPfx

/-! ## HA service controller (part_000, `ServiceSyncReconciler`) -/

/-- The service annotations read and written by the reconciler.  Values are
modelled parsed: the `lbipam.cilium.io/ips` comma-joined list as a list of
128-bit addresses (a missing key and the empty string both map to `[]`),
the `external-dns.alpha.kubernetes.io/target` as an optional address
(`none` for missing or empty), and `dynamic-prefix.io/last-sync` as an
optional timestamp.  Mode annotations with empty values are modelled as
`none`, matching the Go empty-string checks. -/
structure ServiceAnnots where
  svcAddrRange : Option String
  svcSubnet : Option String
  poolAddrRange : Option String
  poolSubnet : Option String
  ciliumIPs : List Nat
  dnsTarget : Option Nat
  lastSync : Option Nat
  deriving Repr, DecidableEq

/-- `calculateIPOffset`: byte-wise subtraction `target - base` with borrow,
the final borrow dropped, i.e. subtraction modulo `2 ^ 128`. -/
def calculateIPOffset (base target : Nat) : Nat :=
  (addrSpace + target - base) % addrSpace

/-- `applyIPOffset`: byte-wise addition with carry, the final carry
dropped, i.e. addition modulo `2 ^ 128`. -/
def applyIPOffset (base offsetVal : Nat) : Nat :=
  (base + offsetVal) % addrSpace

/-- `calculateAddressRangeIPs` (part_000): find the named range spec
(`.ok none` when absent, mirroring the `nil, nil` return), compute the
current range from `status.currentPrefix`, take the offset of the service
IP from the range start, and append one IP per history entry (up to
`maxHistory`), skipping entries whose range computation fails. -/
def calculateAddressRangeIPs (spec : DPSpec) (st : DPStatus) (currentAddr : Nat)
    (addressRangeName : String) (maxHistory : Nat) :
    Except Unit (Option (Nat × List Nat)) :=
  match findAddressRangeSpecP spec addressRangeName with
  | none => .ok none
  | some rangeSpec =>
    match st.currentPrefix with
    | none => .error ()
    | some currentPrefix =>
      match CalculateAddressRange currentPrefix rangeSpec with
      | .error _ => .error ()
      | .ok currentRange =>
        let offsetVal := calculateIPOffset currentRange.start currentAddr
        .ok (some (currentAddr,
          currentAddr :: (st.history.take maxHistory).filterMap (fun h0 =>
            match CalculateAddressRange h0.pfx rangeSpec with
            | .error _ => none
            | .ok histRange => some (applyIPOffset histRange.start offsetVal))))

/-- `calculateSubnetIPs` (part_000): the subnet-mode analogue, using the
network address of the computed subnet as the offset base. -/
def calculateSubnetIPs (spec : DPSpec) (st : DPStatus) (currentAddr : Nat)
    (subnetName : String) (maxHistory : Nat) :
    Except Unit (Option (Nat × List Nat)) :=
  match findSubnetSpecP spec subnetName with
  | none => .ok none
  | some subnetSpec =>
    match st.currentPrefix with
    | none => .error ()
    | some currentPrefix =>
      match CalculateSubnet currentPrefix subnetSpec with
      | .error _ => .error ()
      | .ok currentSubnet =>
        let offsetVal := calculateIPOffset currentSubnet.cidr.addr currentAddr
        .ok (some (currentAddr,
          currentAddr :: (st.history.take maxHistory).filterMap (fun h0 =>
            match CalculateSubnet h0.pfx subnetSpec with
            | .error _ => none
            | .ok histSubnet => some (applyIPOffset histSubnet.cidr.addr offsetVal))))

/-- `calculateServiceIPs` (part_000): resolve the addressing mode from the
service-level annotations with pool-level fallback; on a computation error
fall back to the current IP alone; a missing range/subnet spec produces the
empty list and an empty DNS target (`nil, ""`); without any mode
annotation use the current IP verbatim.  Returns `(allIPs, currentIP)`. -/
def calculateServiceIPs (spec : DPSpec) (st : DPStatus) (annots : ServiceAnnots)
    (currentServiceIP : Nat) : List Nat × Option Nat :=
  let maxHistory := maxHistoryOf spec.transition
  let addressRangeName := match annots.svcAddrRange with
    | some n => some n
    | none => annots.poolAddrRange
  let subnetName := match annots.svcSubnet with
    | some n => some n
    | none => annots.poolSubnet
  match addressRangeName with
  | some rn =>
    match calculateAddressRangeIPs spec st currentServiceIP rn maxHistory with
    | .error _ => ([currentServiceIP], some currentServiceIP)
    | .ok none => ([], none)
    | .ok (some (cur, ips)) => (ips, some cur)
  | none =>
    match subnetName with
    | some sn =>
      match calculateSubnetIPs spec st currentServiceIP sn maxHistory with
      | .error _ => ([currentServiceIP], some currentServiceIP)
      | .ok none => ([], none)
      | .ok (some (cur, ips)) => (ips, some cur)
    | none => ([currentServiceIP], some currentServiceIP)

/-- The annotation-update portion of `ServiceSyncReconciler.Reconcile`
(part_000, lines 122–152), reached when the service is a LoadBalancer with
the name annotation, the DynamicPrefix is in HA mode and the service has an
IPv6 ingress IP: write `lbipam.cilium.io/ips`,
`external-dns.alpha.kubernetes.io/target` and the last-sync stamp only when
the first two would change (content comparison).  Returns the resulting
annotations and whether `r.Update` was called. -/
def reconcileServiceAnnots (spec : DPSpec) (st : DPStatus) (annots : ServiceAnnots)
    (currentServiceIP now : Nat) : ServiceAnnots × Bool :=
  let r := calculateServiceIPs spec st annots currentServiceIP
  if annots.ciliumIPs = r.1 ∧ annots.dnsTarget = r.2 then
    (annots, false)
  else
    ({ annots with ciliumIPs := r.1, dnsTarget := r.2, lastSync := some now }, true)

end DynPfx

namespace DynPfx

/-! ## Theorems: HA service IP annotations (C1) -/

theorem length_filterMap_of_forall_some {α β : Type} (f : α → Option β) :
    ∀ l : List α, (∀ x ∈ l, ∃ y, f x = some y) → (l.filterMap f).length = l.length := by
  intro l
  induction l with
  | nil => intro _; rfl
  | cons a t ih =>
    intro h
    obtain ⟨y, hy⟩ := h a (by simp)
    rw [List.filterMap_cons, hy]
    simp only [List.length_cons]
    rw [ih (fun x hx => h x (by simp [hx]))]

/-- C1 (amended): when the service selects an address range that exists in
the spec, the current prefix is set, and the range computes for the current
prefix and for every history entry, the reconcile writes
`lbipam.cilium.io/ips` as a list of exactly `1 + h` addresses (`h` the
history length, which the controller caps at `maxPrefixHistory`), each a
valid 128-bit IPv6 value, whose first element is the service's current IP
and equals the `external-dns.alpha.kubernetes.io/target` annotation. -/
theorem c1_ha_service_ip_list (spec : DPSpec) (st : DPStatus)
    (annots : ServiceAnnots) (a now : Nat) (rn : String)
    (cfg : AddressRangeConfig) (cp : Pfx) (r : AddressRange)
    (ha : a < addrSpace)
    (hra : annots.svcAddrRange = some rn)
    (hfind : findAddressRangeSpecP spec rn = some cfg)
    (hcp : st.currentPrefix = some cp)
    (hcur : CalculateAddressRange cp cfg = .ok r)
    (hhist : ∀ h0 ∈ st.history, ∃ rh, CalculateAddressRange h0.pfx cfg = .ok rh)
    (hlen : st.history.length ≤ maxHistoryOf spec.transition) :
    ∃ ips : List Nat,
      calculateServiceIPs spec st annots a = (ips, some a) ∧
      ips.length = 1 + st.history.length ∧
      ips.head? = some a ∧
      (∀ ip ∈ ips, ip < addrSpace) ∧
      (reconcileServiceAnnots spec st annots a now).1.ciliumIPs = ips ∧
      (reconcileServiceAnnots spec st annots a now).1.dnsTarget = some a := by
  have htake : st.history.take (maxHistoryOf spec.transition) = st.history :=
    List.take_of_length_le hlen
  have hcalc : calculateAddressRangeIPs spec st a rn (maxHistoryOf spec.transition) =
      .ok (some (a, a :: st.history.filterMap (fun h0 =>
        match CalculateAddressRange h0.pfx cfg with
        | .error _ => none
        | .ok histRange =>
          some (applyIPOffset histRange.start (calculateIPOffset r.start a))))) := by
    unfold calculateAddressRangeIPs
    simp only [hfind, hcp, hcur, htake]
  have hsvc : calculateServiceIPs spec st annots a =
      (a :: st.history.filterMap (fun h0 =>
        match CalculateAddressRange h0.pfx cfg with
        | .error _ => none
        | .ok histRange =>
          some (applyIPOffset histRange.start (calculateIPOffset r.start a))), some a) := by
    unfold calculateServiceIPs
    simp only [hra, hcalc]
  refine ⟨_, hsvc, ?_, rfl, ?_, ?_, ?_⟩
  · simp only [List.length_cons]
    rw [length_filterMap_of_forall_some _ st.history ?_]
    · omega
    · intro h0 hmem
      obtain ⟨rh, hrh⟩ := hhist h0 hmem
      exact ⟨_, by rw [hrh]⟩
  · intro ip hip
    rcases List.mem_cons.mp hip with h | h
    · exact h ▸ ha
    · obtain ⟨x, _, hfx⟩ := List.mem_filterMap.mp h
      rcases hx : CalculateAddressRange x.pfx cfg with e | v
      · rw [hx] at hfx
        cases hfx
      · rw [hx] at hfx
        have : ip = applyIPOffset v.start (calculateIPOffset r.start a) := by
          cases hfx
          rfl
        rw [this]
        exact Nat.mod_lt _ (by decide)
  · simp only [reconcileServiceAnnots, hsvc]
    split
    · rename_i hcond
      exact hcond.1
    · rfl
  · simp only [reconcileServiceAnnots, hsvc]
    split
    · rename_i hcond
      exact hcond.2
    · rfl

end DynPfx

namespace DynPfx

/-- Witness for `c1_ha_service_ip_list`: scenario S3 — current prefix
`2001:db8:1::/48`, history `2001:db8:2::/48`, service IP
`2001:db8:1:0:f000::10` — yields the two-element list
`2001:db8:1:0:f000::10, 2001:db8:2:0:f000::10` with the first element as
DNS target. -/
theorem c1_ha_service_ip_list_witness :
    calculateServiceIPs
        ⟨[⟨"lb", some 0xf000000000000000, some 0xffffffffffffffff⟩], [],
         some ⟨.ha, 0⟩⟩
        ⟨some ⟨0x20010db8000100000000000000000000, 48⟩, [], [],
         [⟨⟨0x20010db8000200000000000000000000, 48⟩, 0, none, .draining⟩], false⟩
        ⟨some "lb", none, none, none, [], none, none⟩
        0x20010db800010000f000000000000010 =
      ([0x20010db800010000f000000000000010, 0x20010db800020000f000000000000010],
       some 0x20010db800010000f000000000000010) ∧
    ∃ ips : List Nat,
      calculateServiceIPs
          ⟨[⟨"lb", some 0xf000000000000000, some 0xffffffffffffffff⟩], [],
           some ⟨.ha, 0⟩⟩
          ⟨some ⟨0x20010db8000100000000000000000000, 48⟩, [], [],
           [⟨⟨0x20010db8000200000000000000000000, 48⟩, 0, none, .draining⟩], false⟩
          ⟨some "lb", none, none, none, [], none, none⟩
          0x20010db800010000f000000000000010 =
        (ips, some 0x20010db800010000f000000000000010) ∧
      ips.length = 1 +
        ([⟨⟨0x20010db8000200000000000000000000, 48⟩, 0, none, .draining⟩] :
          List PrefixHistoryEntry).length ∧
      ips.head? = some 0x20010db800010000f000000000000010 ∧
      (∀ ip ∈ ips, ip < addrSpace) ∧
      (reconcileServiceAnnots
          ⟨[⟨"lb", some 0xf000000000000000, some 0xffffffffffffffff⟩], [],
           some ⟨.ha, 0⟩⟩
          ⟨some ⟨0x20010db8000100000000000000000000, 48⟩, [], [],
           [⟨⟨0x20010db8000200000000000000000000, 48⟩, 0, none, .draining⟩], false⟩
          ⟨some "lb", none, none, none, [], none, none⟩
          0x20010db800010000f000000000000010 7).1.ciliumIPs = ips ∧
      (reconcileServiceAnnots
          ⟨[⟨"lb", some 0xf000000000000000, some 0xffffffffffffffff⟩], [],
           some ⟨.ha, 0⟩⟩
          ⟨some ⟨0x20010db8000100000000000000000000, 48⟩, [], [],
           [⟨⟨0x20010db8000200000000000000000000, 48⟩, 0, none, .draining⟩], false⟩
          ⟨some "lb", none, none, none, [], none, none⟩
          0x20010db800010000f000000000000010 7).1.dnsTarget =
        some 0x20010db800010000f000000000000010 := by
  refine ⟨rfl, ?_⟩
  exact c1_ha_service_ip_list
    ⟨[⟨"lb", some 0xf000000000000000, some 0xffffffffffffffff⟩], [],
     some ⟨.ha, 0⟩⟩
    ⟨some ⟨0x20010db8000100000000000000000000, 48⟩, [], [],
     [⟨⟨0x20010db8000200000000000000000000, 48⟩, 0, none, .draining⟩], false⟩
    ⟨some "lb", none, none, none, [], none, none⟩
    0x20010db800010000f000000000000010 7 "lb"
    ⟨"lb", some 0xf000000000000000, some 0xffffffffffffffff⟩
    ⟨0x20010db8000100000000000000000000, 48⟩
    ⟨"lb", 0x20010db800010000f000000000000000, 0x20010db800010000ffffffffffffffff⟩
    (by decide) rfl rfl rfl rfl
    (by
      intro h0 hmem
      simp only [List.mem_singleton] at hmem
      subst hmem
      exact ⟨⟨"lb", 0x20010db800020000f000000000000000,
        0x20010db800020000ffffffffffffffff⟩, rfl⟩)
    (by decide)

/-- Counterexample to C1 as stated: a LoadBalancer service referencing an
HA-mode DynamicPrefix with history length 1, but carrying no address-range
or subnet annotation, gets a single-element `lbipam.cilium.io/ips` list —
not the claimed `1 + h = 2` elements. -/
theorem c1_counterexample :
    (reconcileServiceAnnots
        ⟨[⟨"lb", some 0xf000000000000000, some 0xffffffffffffffff⟩], [],
         some ⟨.ha, 0⟩⟩
        ⟨some ⟨0x20010db8000100000000000000000000, 48⟩, [], [],
         [⟨⟨0x20010db8000200000000000000000000, 48⟩, 0, none, .draining⟩], false⟩
        ⟨none, none, none, none, [], none, none⟩
        0x20010db800010000f000000000000010 7).1.ciliumIPs =
      [0x20010db800010000f000000000000010] ∧
    ([0x20010db800010000f000000000000010] : List Nat).length = 1 ∧
    ([⟨⟨0x20010db8000200000000000000000000, 48⟩, 0, none, .draining⟩] :
      List PrefixHistoryEntry).length = 1 ∧
    (1 : Nat) ≠ 1 + 1 := by
  refine ⟨rfl, rfl, rfl, by decide⟩

end DynPfx
